import Mathlib

/-!
# DXFreightRouting — verification of the allocation engine

A shallow embedding of the core routing logic of the DXFreightRouting
repository (`app/main.py`: `calculate_cost`, `get_allocations` and its inner
helpers; `app/import_data.py`: `calculate_distances`), together with theorems
settling the specification claims.

Modelling conventions:
* Python `int` is modelled as `Int`; Python `//` and `%` on integers are
  `Int.fdiv` / `Int.fmod` (floor division, modulus with the divisor's sign).
* Python `float` arithmetic is modelled exactly over `ℚ` (the engine only
  adds, multiplies and divides values derived from its inputs; we take the
  idealised exact-arithmetic semantics).  `int(x)` on a float is truncation
  toward zero (`pyInt`), `round(x, n)` is round-half-to-even (`pyRound1`,
  `round2`).
* Time-of-day strings `"HH:MM"` are modelled as minutes since midnight
  (`Nat`); a nullable/empty time column is an `Option Nat`, and Python's
  `value or "default"` idiom becomes `Option.getD`.  The engine assumes all
  time strings it receives are well formed, so the `HH:MM` parser itself is
  not modelled.
* Python dict construction (later entries overwrite earlier ones) is
  modelled by `dlast`, lookup of the last matching binding in a list.
* The one partial operation in the engine, the unguarded dict access
  `depot_allocated[assigned_depot_id] += trailer_parcels`, makes the engine
  fallible: the embedding returns `Option`, with `none` standing for the
  Python `KeyError`.
* All inputs are the rows already filtered to the target date, as the
  engine's initial queries produce them; the date component of the various
  keys is therefore dropped.
-/

/-- Lookup of the last binding for a key in an association list; this is the
value a Python dict built from the list (later entries overwriting earlier
ones) would hold for that key. -/
def dlast {α β : Type} [DecidableEq α] : List (α × β) → α → Option β
  | [], _ => none
  | p :: rest, k =>
    match dlast rest k with
    | some v => some v
    | none => if p.1 = k then some p.2 else none

/-- Python `int()` applied to a float: truncation toward zero. -/
def pyInt (q : ℚ) : ℤ := if 0 ≤ q then ⌊q⌋ else ⌈q⌉

/-- Round-half-to-even to the nearest integer, the rounding mode of Python's
built-in `round`. -/
def roundHalfEven (q : ℚ) : ℤ :=
  let f := ⌊q⌋
  let r := q - f
  if r < 1/2 then f
  else if 1/2 < r then f + 1
  else if f % 2 = 0 then f else f + 1

/-- Python `round(x, 1)`: round-half-to-even to one decimal place. -/
def pyRound1 (q : ℚ) : ℚ := (roundHalfEven (q * 10) : ℚ) / 10

/-- Python `round(x, 2)`: round-half-to-even to two decimal places. -/
def round2 (q : ℚ) : ℚ := (roundHalfEven (q * 100) : ℚ) / 100

/-! ## Data model (from `app/models.py`)

Only the columns the allocation engine reads are kept.  Nullable text/time
columns are `Option`; `is_active` flags are `Bool`. -/

structure CollectionPoint where
  cpid : String
  name : String
  is_active : Bool
  deriving Repr, DecidableEq

structure Depot where
  depot_id : String
  name : String
  daily_capacity : ℤ
  sortation_start_time : Option ℕ
  cutoff_time : Option ℕ
  is_active : Bool
  deriving Repr, DecidableEq

structure DailyVolume where
  cpid : String
  parcels : ℤ
  trailers : ℤ
  collection_time : Option ℕ
  deriving Repr, DecidableEq

structure ManualOverride where
  cpid : String
  trailer_number : ℤ
  collection_time : Option ℕ
  to_depot_id : String
  deriving Repr, DecidableEq

structure CapacityOverride where
  depot_id : String
  override_capacity : ℤ
  deriving Repr, DecidableEq

structure CPDepotDistance where
  cpid : String
  depot_id : String
  distance_miles : ℚ
  rank : ℤ
  deriving Repr, DecidableEq

/-! ## Pure arithmetic helpers (from `app/main.py`) -/

/-- `calculate_cost`: £150 base + £1.80/mile, minimum £200. -/
def calculate_cost (distance_miles : ℚ) : ℚ :=
  let cost := 150 + distance_miles * (9/5)
  max cost 200

/-- `minutes_to_time`: the `(hours, minutes)` pair that the Python code
formats as `f"{h:02d}:{m:02d}"`.  `h = int(mins // 60)`, `m = int(mins % 60)`;
float floor-division/modulus followed by `int` give the integer floor parts. -/
def minutes_to_time (mins : ℚ) : ℤ × ℤ :=
  (⌊mins / 60⌋, ⌊mins - 60 * (⌊mins / 60⌋ : ℚ)⌋)

/-- `calculate_arrival_time`: collection + 1 h loading + travel at 40 mph,
with the collection time already converted to minutes since midnight. -/
def calculate_arrival_time (collection_mins : ℕ) (distance_miles : ℚ) : ℚ :=
  (collection_mins : ℚ) + 60 + distance_miles / 40 * 60

/-- `calculate_available_capacity`: capacity left at `arrival_mins`, linearly
ramping from the full `base_capacity` at the sortation start down to zero at
the cutoff.  The depot's time columns default to 08:00 / 18:00 when absent. -/
def calculate_available_capacity (depot : Depot) (arrival_mins : ℚ)
    (base_capacity : ℤ) : ℤ :=
  let start_mins : ℕ := depot.sortation_start_time.getD 480
  let cutoff_mins : ℕ := depot.cutoff_time.getD 1080
  if arrival_mins ≤ (start_mins : ℚ) then base_capacity
  else if (cutoff_mins : ℚ) ≤ arrival_mins then 0
  else
    let total_window : ℤ := (cutoff_mins : ℤ) - (start_mins : ℤ)
    let time_remaining : ℚ := (cutoff_mins : ℚ) - arrival_mins
    if total_window ≤ 0 then 0
    else pyInt ((base_capacity : ℚ) * (time_remaining / ((total_window : ℤ) : ℚ)))

/-! ## Engine output records (the dicts appended in `get_allocations`) -/

structure Allocation where
  cpid : String
  cp_name : String
  trailer_num : ℤ
  parcels : ℤ
  depot_id : String
  depot_name : String
  distance : ℚ
  cost : ℚ
  is_override : Bool
  collection_time : ℕ
  arrival_time : ℤ × ℤ
  is_peak_arrival : Bool
  deriving Repr, DecidableEq

structure DepotSummary where
  depot_id : String
  name : String
  allocated_parcels : ℤ
  capacity : ℤ
  utilisation : ℚ
  sortation_start : ℕ
  cutoff_time : ℕ
  deriving Repr, DecidableEq

/-- The rows the engine reads for the target date, as returned by its
initial queries (`DailyVolume`, `ManualOverride`, `CapacityOverride`,
`Depot`, plus the per-volume `CollectionPoint` and `CPDepotDistance`
lookups). -/
structure EngineInput where
  volumes : List DailyVolume
  overrides : List ManualOverride
  capacity_overrides : List CapacityOverride
  depots : List Depot
  cps : List CollectionPoint
  distances : List CPDepotDistance

/-- The read-only context of the allocation loop: the active depots and the
override/master-data rows, from which the engine's dicts are derived. -/
structure Env where
  overrides : List ManualOverride
  capacity_overrides : List CapacityOverride
  depots : List Depot
  cps : List CollectionPoint
  distances : List CPDepotDistance

/-- `override_map = {(o.cpid, o.trailer_number, o.collection_time): o.to_depot_id}`. -/
def Env.overrideMap (e : Env) (k : String × ℤ × Option ℕ) : Option String :=
  dlast (e.overrides.map fun o => ((o.cpid, o.trailer_number, o.collection_time), o.to_depot_id)) k

/-- `capacity_override_map = {co.depot_id: co.override_capacity}`. -/
def Env.capMap (e : Env) (k : String) : Option ℤ :=
  dlast (e.capacity_overrides.map fun co => (co.depot_id, co.override_capacity)) k

/-- `depot_map = {d.depot_id: d for d in depots}` (active depots only). -/
def Env.depotMap (e : Env) (k : String) : Option Depot :=
  dlast (e.depots.map fun d => (d.depot_id, d)) k

/-- The `depot_base_capacities` dict: per active depot, the capacity
override for the date if one exists, else the depot's daily capacity. -/
def Env.baseCapList (e : Env) : List (String × ℤ) :=
  e.depots.map fun d =>
    (d.depot_id, match e.capMap d.depot_id with
                 | some c => c
                 | none => d.daily_capacity)

/-- `depot_base_capacities.get(k, 0)`. -/
def Env.baseCap (e : Env) (k : String) : ℤ :=
  (dlast e.baseCapList k).getD 0

/-- The key set of the `depot_allocated` dict: the active depot ids. -/
def Env.activeIds (e : Env) : List String :=
  e.depots.map (·.depot_id)

/-- The loop state: the `depot_allocated` counters (total function; its dict
key set is `Env.activeIds` and never changes) and the accumulated
`allocations` list. -/
structure EState where
  A : String → ℤ
  out : List Allocation

/-- Truthiness of `assigned_depot_id` in the Python code: `None` and the
empty string are falsy. -/
def strFalsy : Option String → Bool
  | none => true
  | some s => s == ""

/-- The automatic-assignment scan (`for dist in distances: ...` at
`main.py:137-156`): walk the rank-ordered distance records, skip depots not
in `depot_map` and depots with non-positive effective capacity, and take the
first depot whose available capacity at the estimated arrival time still fits
this trailer on top of what is already allocated. -/
def firstFit (e : Env) (A : String → ℤ) (ct : ℕ) (tp : ℤ) :
    List CPDepotDistance → Option String
  | [] => none
  | dist :: rest =>
    match e.depotMap dist.depot_id with
    | none => firstFit e A ct tp rest
    | some depot =>
      let base_cap := e.baseCap dist.depot_id
      if base_cap ≤ 0 then firstFit e A ct tp rest
      else
        let arrival_mins := calculate_arrival_time ct dist.distance_miles
        let available_cap := calculate_available_capacity depot arrival_mins base_cap
        if A dist.depot_id + tp ≤ available_cap then some dist.depot_id
        else firstFit e A ct tp rest

/-- The overflow scan (`main.py:160-164`): first ranked depot with positive
effective capacity, ignoring the time window. -/
def overflowScan (e : Env) : List CPDepotDistance → Option String
  | [] => none
  | dist :: rest =>
    if 0 < e.baseCap dist.depot_id then some dist.depot_id
    else overflowScan e rest

/-- Parcels carried by trailer `n`: `per_trailer + (1 if n <= remainder else 0)`. -/
def trailerParcels (ppt rem n : ℤ) : ℤ :=
  ppt + (if n ≤ rem then 1 else 0)

/-- `parcels // trailers if trailers > 0 else parcels` (Python floor division). -/
def pptOf (v : DailyVolume) : ℤ :=
  if 0 < v.trailers then v.parcels.fdiv v.trailers else v.parcels

/-- `parcels % trailers if trailers > 0 else 0` (Python modulus). -/
def remOf (v : DailyVolume) : ℤ :=
  if 0 < v.trailers then v.parcels.fmod v.trailers else 0

/-- `range(1, trailers + 1)` as a list of integers. -/
def trailerNums (trailers : ℤ) : List ℤ :=
  (List.range' 1 trailers.toNat).map (fun n : ℕ => (n : ℤ))

/-- One iteration of the per-trailer loop (`main.py:124-193`), for a trailer
`n` of the current volume.  `none` models the `KeyError` raised by
`depot_allocated[assigned_depot_id] += trailer_parcels` when the assigned
depot id is not a key of the counter dict. -/
def processTrailer (e : Env) (cp_name cpid : String) (ct : ℕ)
    (dists : List CPDepotDistance) (ppt rem : ℤ) (n : ℤ) (st : EState) :
    Option EState :=
  let tp := trailerParcels ppt rem n
  let step : Option String × Bool × Bool :=
    match e.overrideMap (cpid, n, some ct) with
    | some d0 => (some d0, true, false)
    | none =>
      let a1 := firstFit e st.A ct tp dists
      if strFalsy a1 ∧ dists ≠ [] then
        match overflowScan e dists with
        | some d2 => (some d2, false, true)
        | none => (a1, false, false)
      else (a1, false, false)
  match step with
  | (assigned, is_override, is_peak) =>
    if strFalsy assigned then some st
    else
      match assigned with
      | none => some st
      | some id =>
        if e.activeIds.contains id then
          let A' := fun k => if k = id then st.A k + tp else st.A k
          let dist_record := dists.find? (fun d => d.depot_id == id)
          let distance := (dist_record.map (·.distance_miles)).getD 0
          let depot := e.depotMap id
          let arrival_mins := calculate_arrival_time ct distance
          some ⟨A', st.out ++
            [{ cpid := cpid, cp_name := cp_name, trailer_num := n, parcels := tp,
               depot_id := id,
               depot_name := (depot.map (·.name)).getD id,
               distance := distance, cost := calculate_cost distance,
               is_override := is_override, collection_time := ct,
               arrival_time := minutes_to_time arrival_mins,
               is_peak_arrival := is_peak }]⟩
        else none

/-- The distance records the engine scans for a collection point: the rows
with that `cpid`, ordered by rank (`order_by(CPDepotDistance.rank)`).  A
stable sort's output is uniquely determined by the ordering, so insertion
sort (which, unlike merge sort, reduces definitionally) is used to model
the database's rank ordering. -/
def distsFor (distances : List CPDepotDistance) (cpid : String) :
    List CPDepotDistance :=
  (distances.filter (fun d => d.cpid == cpid)).insertionSort
    (fun a b => a.rank ≤ b.rank)

/-- One iteration of the per-volume loop (`main.py:111-193`): look up the
collection point (skip the row if unknown), split the parcels over the
trailers, and run the per-trailer loop. -/
def processVolume (e : Env) (st : EState) (v : DailyVolume) : Option EState :=
  match e.cps.find? (fun cp => cp.cpid == v.cpid) with
  | none => some st
  | some cp =>
    let ct := v.collection_time.getD 540
    let dists := distsFor e.distances v.cpid
    (trailerNums v.trailers).foldlM
      (fun st n => processTrailer e cp.name v.cpid ct dists (pptOf v) (remOf v) n st) st

/-- The depot summaries (`main.py:195-210`): active depots with a non-zero
allocated total, with utilisation rounded to one decimal and forced to 0 for
non-positive capacity. -/
def depotSummaries (e : Env) (A : String → ℤ) : List DepotSummary :=
  e.depots.filterMap fun depot =>
    let allocated := A depot.depot_id
    if allocated = 0 then none
    else
      let base_cap := e.baseCap depot.depot_id
      some { depot_id := depot.depot_id, name := depot.name,
             allocated_parcels := allocated, capacity := base_cap,
             utilisation :=
               if 0 < base_cap then pyRound1 ((allocated : ℚ) / (base_cap : ℚ) * 100)
               else 0,
             sortation_start := depot.sortation_start_time.getD 480,
             cutoff_time := depot.cutoff_time.getD 1080 }

/-- The environment `get_allocations` builds before its main loop: the
overrides and master data, with the depot list filtered to active depots. -/
def mkEnv (input : EngineInput) : Env :=
  { overrides := input.overrides,
    capacity_overrides := input.capacity_overrides,
    depots := input.depots.filter (·.is_active),
    cps := input.cps,
    distances := input.distances }

/-- Volumes sorted ascending by collection time (stable, like Python's
`sorted` — any stable sort is extensionally that function), absent times
defaulting to 09:00. -/
def sortVolumes (volumes : List DailyVolume) : List DailyVolume :=
  volumes.insertionSort
    (fun a b => a.collection_time.getD 540 ≤ b.collection_time.getD 540)

/-- `get_allocations` (`main.py:37-212`): the allocation engine for one
date.  Returns `none` when the Python code would raise a `KeyError`. -/
def getAllocations (input : EngineInput) :
    Option (List Allocation × List DepotSummary) :=
  if input.volumes.isEmpty then some ([], [])
  else
    let e := mkEnv input
    let st0 : EState := ⟨fun _ => 0, []⟩
    match (sortVolumes input.volumes).foldlM (processVolume e) st0 with
    | none => none
    | some st => some (st.out, depotSummaries e st.A)

/-! ## Distance precomputation (from `app/import_data.py:calculate_distances`
and `app/main.py:add_collection_point`)

Both sites run, for one collection point, the same block: compute the
haversine distance to **every** depot returned by `db.query(Depot).all()`
(no `is_active` filter), sort ascending by distance (Python's stable sort),
and store records with rank 1..N and the distance rounded to two decimals.
The haversine itself is transcendental floating-point arithmetic; its value
per depot is taken as a parameter `hav`. -/

/-- The `(depot_id, distance)` pairs before sorting. -/
def rawPairs (depots : List Depot) (hav : Depot → ℚ) : List (String × ℚ) :=
  depots.map fun d => (d.depot_id, hav d)

/-- `distances.sort(key=lambda x: x[1])` — Python's stable sort, modelled
by insertion sort (stable sorts are extensionally unique). -/
def sortedPairs (depots : List Depot) (hav : Depot → ℚ) : List (String × ℚ) :=
  (rawPairs depots hav).insertionSort (fun a b => a.2 ≤ b.2)

/-- The stored `CPDepotDistance` records for one collection point:
`enumerate(distances, 1)` assigns ranks 1..N in sorted order, and the stored
distance is rounded to two decimals. -/
def calculate_distances_cp (cpid : String) (depots : List Depot)
    (hav : Depot → ℚ) : List CPDepotDistance :=
  let sorted := sortedPairs depots hav
  ((List.range' 1 sorted.length).zip sorted).map fun p =>
    { cpid := cpid, depot_id := p.2.1,
      distance_miles := round2 p.2.2, rank := (p.1 : ℤ) }

/-- A ranked distance record `rec` *passes* the automatic-assignment check
for a trailer with parcel count `tp`, collected at `ct`, when the counters
read `A`: the depot is in `depot_map` (active), its effective capacity is
positive, and the already-allocated total plus `tp` fits within the
available capacity at the estimated arrival time computed from `ct` and this
record's distance. -/
def passes (e : Env) (A : String → ℤ) (ct : ℕ) (tp : ℤ)
    (rec : CPDepotDistance) : Prop :=
  ∃ depot, e.depotMap rec.depot_id = some depot ∧
    0 < e.baseCap rec.depot_id ∧
    A rec.depot_id + tp ≤
      calculate_available_capacity depot
        (calculate_arrival_time ct rec.distance_miles)
        (e.baseCap rec.depot_id)

/-- An allocation record is *accounted for* when, at some counter state `A`,
its assignment is explained by the override map, by a successful first-fit
scan, or by the overflow scan, as its two flags record. -/
def AllocOK (input : EngineInput) (a : Allocation) : Prop :=
  ∃ A : String → ℤ,
    ((a.is_override = true ∧
        (mkEnv input).overrideMap
          (a.cpid, a.trailer_num, some a.collection_time) = some a.depot_id) ∨
     (a.is_override = false ∧ a.is_peak_arrival = false ∧
        firstFit (mkEnv input) A a.collection_time a.parcels
          (distsFor input.distances a.cpid) = some a.depot_id) ∨
     (a.is_override = false ∧ a.is_peak_arrival = true ∧
        overflowScan (mkEnv input) (distsFor input.distances a.cpid)
          = some a.depot_id))

/-- The parcels already allocated to depot `k` by the allocations in `l`.
Each appended allocation increments its depot's counter by exactly its
parcel count, so the engine's `depot_allocated` counters at any moment equal
`allocatedFrom` of the output produced so far (proved as a run invariant). -/
def allocatedFrom (l : List Allocation) (k : String) : ℤ :=
  ((l.filter (fun a => a.depot_id == k)).map (·.parcels)).sum

/-- Allocation `a`, appearing immediately after the output prefix `pre`, is
explained by the engine: by the override map, by a first-fit scan at the
counter state `allocatedFrom pre` — the per-depot totals already allocated
at the moment of assignment — or by the overflow scan, as its flags
record. -/
def AllocAtPrefix (input : EngineInput) (pre : List Allocation)
    (a : Allocation) : Prop :=
  (a.is_override = true ∧
      (mkEnv input).overrideMap
        (a.cpid, a.trailer_num, some a.collection_time) = some a.depot_id) ∨
  (a.is_override = false ∧ a.is_peak_arrival = false ∧
      firstFit (mkEnv input) (allocatedFrom pre) a.collection_time a.parcels
        (distsFor input.distances a.cpid) = some a.depot_id) ∨
  (a.is_override = false ∧ a.is_peak_arrival = true ∧
      overflowScan (mkEnv input) (distsFor input.distances a.cpid)
        = some a.depot_id)

/-! ## Concrete inputs used by counterexamples and witnesses -/

/-- An active depot with default sortation window. -/
def d1 : Depot := ⟨"D1", "Depot One", 1000, none, none, true⟩

def cp1 : CollectionPoint := ⟨"CP1", "CP One", true⟩

def v1 : DailyVolume := ⟨"CP1", 100, 2, none⟩

def dist1 : CPDepotDistance := ⟨"CP1", "D1", 20, 1⟩

def inp1 : EngineInput := ⟨[v1], [], [], [d1], [cp1], [dist1]⟩

/-- A volume row with a zero trailer count. -/
def v0 : DailyVolume := ⟨"CP1", 100, 0, none⟩

def inp0 : EngineInput := ⟨[v0], [], [], [d1], [cp1], [dist1]⟩

/-- An override of trailer 1 of `CP1` (collection time 09:00) to `D1`. -/
def ovD1 : ManualOverride := ⟨"CP1", 1, some 540, "D1"⟩

def inpC2 : EngineInput := ⟨[v1], [ovD1], [], [d1], [cp1], [dist1]⟩

/-- A second active depot that has no distance record for `CP1`. -/
def d2A : Depot := ⟨"D2", "Depot Two", 500, none, none, true⟩

/-- An override of trailer 1 of `CP1` to `D2`, which has no distance row. -/
def ovD2 : ManualOverride := ⟨"CP1", 1, some 540, "D2"⟩

def inpC10 : EngineInput := ⟨[v1], [ovD2], [], [d1, d2A], [cp1], [dist1]⟩

/-- An override for a collection point (`ZZZ`) with no volume row, naming a
depot id (`DX`) that is not among the active depots. -/
def ovBad : ManualOverride := ⟨"ZZZ", 1, some 540, "DX"⟩

def inp9c : EngineInput := ⟨[v1], [ovBad], [], [d1], [cp1], []⟩

/-- An earlier-collected volume row that allocates normally. -/
def vEarly : DailyVolume := ⟨"CP1", 10, 1, some 300⟩

/-- An override matching trailer 2 of `CP1`'s 09:00 row but naming the
non-active depot id `DX`. -/
def ovBad2 : ManualOverride := ⟨"CP1", 2, some 540, "DX"⟩

/-- Two volume rows; the second row's second trailer matches `ovBad2`. -/
def inp9g : EngineInput := ⟨[vEarly, v1], [ovBad2], [], [d1], [cp1], [dist1]⟩

/-- Capacity 3, one parcel, one trailer collected at midnight: utilisation
is `round(1/3*100, 1) = 33.3`. -/
def d3 : Depot := ⟨"D001", "Depot", 3, none, none, true⟩

def v3 : DailyVolume := ⟨"CP1", 1, 1, some 0⟩

def dist3 : CPDepotDistance := ⟨"CP1", "D001", 0, 1⟩

def inp8 : EngineInput := ⟨[v3], [], [], [d3], [cp1], [dist3]⟩

/-- An inactive depot, for the distance-precomputation counterexample. -/
def depotX : Depot := ⟨"DX", "Depot X", 5, none, none, false⟩

/-- A depot too small for `v1`'s 50-parcel trailers, to force overflow. -/
def dSmall : Depot := ⟨"D1", "Depot One", 10, none, none, true⟩

def inpC3 : EngineInput := ⟨[v1], [], [], [dSmall], [cp1], [dist1]⟩

/-- A capacity override zeroing out `D1` for the date. -/
def co0 : CapacityOverride := ⟨"D1", 0⟩

def inpC3b : EngineInput := ⟨[v1], [], [co0], [d1], [cp1], [dist1]⟩

/-- The engine's output on `inp1`: both trailers of `CP1` fit at `D1`. -/
def alloc1a : Allocation :=
  ⟨"CP1", "CP One", 1, 50, "D1", "Depot One", 20, 200, false, 540, (10, 30), false⟩

def alloc1b : Allocation :=
  ⟨"CP1", "CP One", 2, 50, "D1", "Depot One", 20, 200, false, 540, (10, 30), false⟩

def sum1 : DepotSummary := ⟨"D1", "Depot One", 100, 1000, 10, 480, 1080⟩

/-- The engine's output on `inp8`: one allocation, utilisation `333/10`. -/
def alloc8 : Allocation :=
  ⟨"CP1", "CP One", 1, 1, "D001", "Depot", 0, 200, false, 0, (1, 0), false⟩

def sum8 : DepotSummary := ⟨"D001", "Depot", 1, 3, 333/10, 480, 1080⟩

/-! ## Arithmetic helper lemmas -/

lemma pyInt_eq_floor {q : ℚ} (h : 0 ≤ q) : pyInt q = ⌊q⌋ := by
  simp [pyInt, h]

lemma roundHalfEven_ge_floor (q : ℚ) : ⌊q⌋ ≤ roundHalfEven q := by
  unfold roundHalfEven
  dsimp only
  split <;> [exact le_refl _; split] <;> [omega; split] <;> omega

lemma roundHalfEven_le_floor_add_one (q : ℚ) : roundHalfEven q ≤ ⌊q⌋ + 1 := by
  unfold roundHalfEven
  dsimp only
  split <;> [omega; split] <;> [omega; split] <;> omega

lemma roundHalfEven_of_frac_lt {q : ℚ} (h : q - ⌊q⌋ < 1/2) :
    roundHalfEven q = ⌊q⌋ := by
  show (if q - (⌊q⌋ : ℚ) < 1/2 then ⌊q⌋
        else if 1/2 < q - (⌊q⌋ : ℚ) then ⌊q⌋ + 1
        else if ⌊q⌋ % 2 = 0 then ⌊q⌋ else ⌊q⌋ + 1) = ⌊q⌋
  rw [if_pos h]

lemma roundHalfEven_of_frac_gt {q : ℚ} (h : 1/2 < q - ⌊q⌋) :
    roundHalfEven q = ⌊q⌋ + 1 := by
  show (if q - (⌊q⌋ : ℚ) < 1/2 then ⌊q⌋
        else if 1/2 < q - (⌊q⌋ : ℚ) then ⌊q⌋ + 1
        else if ⌊q⌋ % 2 = 0 then ⌊q⌋ else ⌊q⌋ + 1) = ⌊q⌋ + 1
  rw [if_neg (by linarith), if_pos h]

lemma roundHalfEven_mono {a b : ℚ} (hab : a ≤ b) :
    roundHalfEven a ≤ roundHalfEven b := by
  rcases lt_or_eq_of_le (Int.floor_le_floor hab : ⌊a⌋ ≤ ⌊b⌋) with hf | hf
  · calc roundHalfEven a ≤ ⌊a⌋ + 1 := roundHalfEven_le_floor_add_one a
      _ ≤ ⌊b⌋ := by omega
      _ ≤ roundHalfEven b := roundHalfEven_ge_floor b
  · by_cases h1 : a - ⌊a⌋ < 1/2
    · have ha : roundHalfEven a = ⌊a⌋ := roundHalfEven_of_frac_lt h1
      rw [ha, hf]
      exact roundHalfEven_ge_floor b
    · by_cases h2 : 1/2 < b - ⌊b⌋
      · have hb : roundHalfEven b = ⌊b⌋ + 1 := roundHalfEven_of_frac_gt h2
        rw [hb, ← hf]
        exact roundHalfEven_le_floor_add_one a
      · have hfa : (⌊a⌋ : ℚ) = (⌊b⌋ : ℚ) := by rw [hf]
        have : a = b := by
          have hra : (1:ℚ)/2 ≤ a - ⌊a⌋ := le_of_not_lt h1
          have hrb : b - ⌊b⌋ ≤ 1/2 := le_of_not_lt h2
          linarith
        rw [this]

lemma round2_mono {a b : ℚ} (hab : a ≤ b) : round2 a ≤ round2 b := by
  unfold round2
  have h := roundHalfEven_mono (mul_le_mul_of_nonneg_right hab (by norm_num : (0:ℚ) ≤ 100))
  have : (roundHalfEven (a * 100) : ℚ) ≤ (roundHalfEven (b * 100) : ℚ) := by
    exact_mod_cast h
  linarith

/-! ## C5 — the Capacity Model -/

/-- **C5.** `calculate_available_capacity` returns the base capacity `C` for
arrivals at or before the sortation start, 0 for later arrivals at or past
the cutoff, and `floor(C × (cutoff − t) / (cutoff − start))` strictly inside
the window; under a degenerate configuration (`cutoff ≤ start`) any arrival
after the start gets 0.  The spec's three bullets are the code's sequential
`if` cases, so the second case presupposes the first failed. -/
theorem C5_capacity_model (depot : Depot) (C : ℤ) (t : ℚ) (hC : 0 ≤ C) :
    (t ≤ ((depot.sortation_start_time.getD 480 : ℕ) : ℚ) →
       calculate_available_capacity depot t C = C) ∧
    (¬ t ≤ ((depot.sortation_start_time.getD 480 : ℕ) : ℚ) →
       ((depot.cutoff_time.getD 1080 : ℕ) : ℚ) ≤ t →
       calculate_available_capacity depot t C = 0) ∧
    (((depot.sortation_start_time.getD 480 : ℕ) : ℚ) < t →
       t < ((depot.cutoff_time.getD 1080 : ℕ) : ℚ) →
       calculate_available_capacity depot t C
         = ⌊(C : ℚ) * (((depot.cutoff_time.getD 1080 : ℕ) : ℚ) - t)
             / (((depot.cutoff_time.getD 1080 : ℕ) : ℚ)
                - ((depot.sortation_start_time.getD 480 : ℕ) : ℚ))⌋) ∧
    (depot.cutoff_time.getD 1080 ≤ depot.sortation_start_time.getD 480 →
       ((depot.sortation_start_time.getD 480 : ℕ) : ℚ) < t →
       calculate_available_capacity depot t C = 0) := by
  set s : ℕ := depot.sortation_start_time.getD 480 with hs
  set c : ℕ := depot.cutoff_time.getD 1080 with hc
  refine ⟨?_, ?_, ?_, ?_⟩
  · intro h
    unfold calculate_available_capacity
    rw [← hs, ← hc, if_pos h]
  · intro h1 h2
    unfold calculate_available_capacity
    rw [← hs, ← hc, if_neg h1, if_pos h2]
  · intro h1 h2
    unfold calculate_available_capacity
    rw [← hs, ← hc, if_neg (not_le.mpr h1), if_neg (not_le.mpr h2)]
    have hsc : (s : ℚ) < (c : ℚ) := lt_trans h1 h2
    have hsc' : (s : ℤ) < (c : ℤ) := by exact_mod_cast hsc
    rw [if_neg (by omega)]
    have hnum : (0:ℚ) ≤ (C : ℚ) * (((c:ℚ) - t) / (((c:ℤ) - (s:ℤ) : ℤ) : ℚ)) := by
      apply mul_nonneg (by exact_mod_cast hC)
      apply div_nonneg (by linarith)
      push_cast
      linarith
    rw [pyInt_eq_floor hnum]
    congr 1
    push_cast
    ring
  · intro h1 h2
    unfold calculate_available_capacity
    have hcs : (c : ℚ) ≤ (s : ℚ) := by exact_mod_cast h1
    rw [← hs, ← hc, if_neg (not_le.mpr h2), if_pos (by linarith)]

/-- Witness for C5: at depot `d1` (window 08:00–18:00), base capacity 1000
and arrival 10:30 (630 min), the in-window case gives
`⌊1000 × (1080 − 630) / 600⌋ = 750`. -/
theorem C5_capacity_model_witness :
    calculate_available_capacity d1 630 1000 = 750 := by
  have h := (C5_capacity_model d1 1000 630 (by norm_num)).2.2.1
  have h' := h (by norm_num [d1]) (by norm_num [d1])
  rw [h']
  norm_num [d1]

/-! ## C4 — the per-trailer parcel split -/

lemma sum_map_add_int (l : List ℤ) (f g : ℤ → ℤ) :
    (l.map (fun n => f n + g n)).sum = (l.map f).sum + (l.map g).sum := by
  induction l with
  | nil => simp
  | cons a l ih => simp [ih]; ring

lemma sum_map_const_int (l : List ℤ) (c : ℤ) :
    (l.map (fun _ => c)).sum = l.length * c := by
  induction l with
  | nil => simp
  | cons a l ih => simp [ih]; ring

lemma indicator_sum_full (k : ℕ) (rem : ℤ) (h : (k : ℤ) ≤ rem) :
    ((List.range' 1 k).map
        (fun n : ℕ => if (n : ℤ) ≤ rem then (1:ℤ) else 0)).sum = k := by
  induction k with
  | zero => simp
  | succ k ih =>
    rw [List.range'_concat]
    have hk : (k : ℤ) ≤ rem := by push_cast at h ⊢; omega
    have hlast : ((1 + 1 * k : ℕ) : ℤ) ≤ rem := by push_cast at h ⊢; omega
    simp only [List.map_append, List.sum_append, ih hk, List.map_cons,
      List.map_nil, List.sum_cons, List.sum_nil, if_pos hlast]
    push_cast
    ring

lemma indicator_sum (k : ℕ) (rem : ℤ) (h0 : 0 ≤ rem) (hk : rem ≤ (k : ℤ)) :
    ((List.range' 1 k).map
        (fun n : ℕ => if (n : ℤ) ≤ rem then (1:ℤ) else 0)).sum = rem := by
  induction k with
  | zero =>
    have : rem = 0 := by push_cast at hk; omega
    simp [this]
  | succ k ih =>
    rw [List.range'_concat]
    by_cases h : rem ≤ (k : ℤ)
    · have hlast : ¬ ((1 + 1 * k : ℕ) : ℤ) ≤ rem := by push_cast; omega
      simp only [List.map_append, List.sum_append, ih h, List.map_cons,
        List.map_nil, List.sum_cons, List.sum_nil, if_neg hlast]
      ring
    · have hlast : ((1 + 1 * k : ℕ) : ℤ) ≤ rem := by push_cast at hk ⊢; omega
      rw [List.map_append, List.sum_append, indicator_sum_full k rem (by omega)]
      simp only [List.map_cons, List.map_nil, List.sum_cons, List.sum_nil,
        if_pos hlast]
      push_cast at hk ⊢
      omega

lemma filter_le_length_eq_indicator_sum (l : List ℤ) (rem : ℤ) :
    (((l.filter (fun n => n ≤ rem)).length : ℕ) : ℤ)
      = (l.map (fun n => if n ≤ rem then (1:ℤ) else 0)).sum := by
  induction l with
  | nil => simp
  | cons a l ih =>
    by_cases h : a ≤ rem
    · simp only [List.filter_cons, h, if_pos h, List.map_cons, List.sum_cons,
        decide_eq_true_eq, if_true, List.length_cons]
      push_cast
      omega
    · simp only [List.filter_cons, List.map_cons, List.sum_cons,
        decide_eq_true_eq]
      rw [if_neg h, if_neg h, ih]
      ring

/-- **C4.** For a volume row with `T ≥ 1` trailers and `P` parcels, trailer
`n` of `1..T` carries `⌊P/T⌋` parcels plus one extra exactly when
`n ≤ P mod T`; consequently the per-trailer counts sum to `P`, and exactly
`P mod T` trailers — those with the lowest numbers, `n ≤ P mod T` — receive
the extra unit. -/
theorem C4_parcel_split (v : DailyVolume) (h : 1 ≤ v.trailers) :
    (∀ n ∈ trailerNums v.trailers,
        trailerParcels (pptOf v) (remOf v) n
          = v.parcels.fdiv v.trailers
            + (if n ≤ v.parcels.fmod v.trailers then 1 else 0)) ∧
    ((trailerNums v.trailers).map (trailerParcels (pptOf v) (remOf v))).sum
      = v.parcels ∧
    ((((trailerNums v.trailers).filter (fun n => n ≤ remOf v)).length : ℕ) : ℤ)
      = v.parcels.fmod v.trailers := by
  have ht : 0 < v.trailers := h
  have hppt : pptOf v = v.parcels.fdiv v.trailers := by simp [pptOf, ht]
  have hrem : remOf v = v.parcels.fmod v.trailers := by simp [remOf, ht]
  have hk : ((v.trailers.toNat : ℕ) : ℤ) = v.trailers :=
    Int.toNat_of_nonneg (le_of_lt ht)
  have h0 : 0 ≤ v.parcels.fmod v.trailers := Int.fmod_nonneg' v.parcels ht
  have hlt : v.parcels.fmod v.trailers < v.trailers :=
    Int.fmod_lt_of_pos v.parcels ht
  have hindmap : ∀ rem : ℤ,
      ((trailerNums v.trailers).map (fun n => if n ≤ rem then (1:ℤ) else 0))
        = (List.range' 1 v.trailers.toNat).map
            (fun n : ℕ => if (n : ℤ) ≤ rem then (1:ℤ) else 0) := by
    intro rem
    unfold trailerNums
    rw [List.map_map]
    rfl
  have hind :
      ((trailerNums v.trailers).map
          (fun n => if n ≤ remOf v then (1:ℤ) else 0)).sum
        = v.parcels.fmod v.trailers := by
    rw [hindmap, hrem]
    exact indicator_sum v.trailers.toNat _ h0 (by rw [hk]; exact le_of_lt hlt)
  refine ⟨?_, ?_, ?_⟩
  · intro n _
    simp [trailerParcels, hppt, hrem]
  · have hsplit :
        ((trailerNums v.trailers).map (trailerParcels (pptOf v) (remOf v))).sum
          = ((trailerNums v.trailers).map (fun _ => pptOf v)).sum
            + ((trailerNums v.trailers).map
                (fun n => if n ≤ remOf v then (1:ℤ) else 0)).sum := by
      rw [← sum_map_add_int]
      rfl
    rw [hsplit, sum_map_const_int, hind]
    have hlen : ((trailerNums v.trailers).length : ℤ) = v.trailers := by
      unfold trailerNums
      simp [hk]
    rw [hlen, hppt]
    exact Int.fdiv_add_fmod v.parcels v.trailers
  · rw [filter_le_length_eq_indicator_sum, hind]

/-- Witness for C4: `P = 5000`, `T = 3` (the spec §8 example) gives the
split `[1667, 1667, 1666]`, which sums to 5000 with 2 extra units. -/
theorem C4_parcel_split_witness :
    (trailerNums (3:ℤ)).map
        (trailerParcels (pptOf ⟨"CP1", 5000, 3, none⟩)
          (remOf ⟨"CP1", 5000, 3, none⟩))
      = [1667, 1667, 1666] ∧
    ((trailerNums (3:ℤ)).map
        (trailerParcels (pptOf ⟨"CP1", 5000, 3, none⟩)
          (remOf ⟨"CP1", 5000, 3, none⟩))).sum = 5000 := by
  constructor
  · decide
  · exact (C4_parcel_split ⟨"CP1", 5000, 3, none⟩ (by norm_num)).2.1

/-! ## C6 — volume rows with non-positive trailer counts -/

lemma trailerNums_eq_nil {t : ℤ} (h : t ≤ 0) : trailerNums t = [] := by
  unfold trailerNums
  rw [Int.toNat_of_nonpos h]
  rfl

/-- **C6 counterexample.** The claim says a row with a non-positive trailer
count is coerced to one trailer carrying all its parcels.  In fact, on input
`inp0` (100 parcels, 0 trailers, with a collection point and an active depot
with ample capacity), the engine emits no allocation at all: the trailer
loop `range(1, trailers + 1)` is empty, so the row is dropped. -/
theorem C6_counterexample : getAllocations inp0 = some ([], []) := by rfl

/-- **C6 amended.** A volume row with trailer count ≤ 0 is processed without
a division by zero (the guarded split never divides), but it yields no
trailer: the per-volume step leaves the allocation state unchanged, so the
row is absent from the output. -/
theorem C6_nonpositive_trailers (e : Env) (st : EState) (v : DailyVolume)
    (h : v.trailers ≤ 0) : processVolume e st v = some st := by
  unfold processVolume
  cases hf : e.cps.find? (fun cp => cp.cpid == v.cpid) with
  | none => rfl
  | some cp => rw [trailerNums_eq_nil h]; rfl

/-- Witness for the amended C6 at the concrete zero-trailer input. -/
theorem C6_nonpositive_trailers_witness :
    processVolume (mkEnv inp0) ⟨fun _ => 0, []⟩ v0 = some ⟨fun _ => 0, []⟩ :=
  C6_nonpositive_trailers (mkEnv inp0) ⟨fun _ => 0, []⟩ v0 (by norm_num [v0])

/-! ## C2 — manual overrides are unconditional -/

/-- Evaluation of the per-trailer step when a manual override names a
nonempty depot id that is a key of the allocated-parcels counters. -/
lemma processTrailer_override (e : Env) (cp_name cpid : String) (ct : ℕ)
    (dists : List CPDepotDistance) (ppt rem n : ℤ) (st : EState) (d0 : String)
    (hov : e.overrideMap (cpid, n, some ct) = some d0) (hne : d0 ≠ "")
    (hact : e.activeIds.contains d0 = true) :
    processTrailer e cp_name cpid ct dists ppt rem n st
      = some ⟨fun k => if k = d0 then st.A k + trailerParcels ppt rem n else st.A k,
          st.out ++
            [{ cpid := cpid, cp_name := cp_name, trailer_num := n,
               parcels := trailerParcels ppt rem n, depot_id := d0,
               depot_name := ((e.depotMap d0).map (·.name)).getD d0,
               distance := ((dists.find? (fun d => d.depot_id == d0)).map
                 (·.distance_miles)).getD 0,
               cost := calculate_cost (((dists.find? (fun d => d.depot_id == d0)).map
                 (·.distance_miles)).getD 0),
               is_override := true, collection_time := ct,
               arrival_time := minutes_to_time (calculate_arrival_time ct
                 (((dists.find? (fun d => d.depot_id == d0)).map
                   (·.distance_miles)).getD 0)),
               is_peak_arrival := false }]⟩ := by
  have hfalsy : strFalsy (some d0) = false := by
    simp [strFalsy, hne]
  unfold processTrailer
  rw [hov]
  simp only [hfalsy, hact, Bool.false_eq_true, if_false, if_true]

/-- **C2.** When a trailer's key (collection-point id, trailer number,
collection time) has a manual override naming depot `d0` (a real, nonempty
depot id among the active depots — the engine faults otherwise, see C9), the
trailer is assigned to `d0` with no capacity condition of any kind, the
allocation is flagged `is_override = true`, and `d0`'s running
allocated-parcels counter is incremented by the trailer's parcel count
(every other counter unchanged), so later automatic assignments see the
reduced headroom. -/
theorem C2_override_unconditional (e : Env) (cp_name cpid : String) (ct : ℕ)
    (dists : List CPDepotDistance) (ppt rem n : ℤ) (st : EState) (d0 : String)
    (hov : e.overrideMap (cpid, n, some ct) = some d0) (hne : d0 ≠ "")
    (hact : e.activeIds.contains d0 = true) :
    ∃ st' a, processTrailer e cp_name cpid ct dists ppt rem n st = some st' ∧
      st'.out = st.out ++ [a] ∧
      a.depot_id = d0 ∧
      a.is_override = true ∧
      a.parcels = trailerParcels ppt rem n ∧
      st'.A d0 = st.A d0 + trailerParcels ppt rem n ∧
      (∀ k, k ≠ d0 → st'.A k = st.A k) := by
  refine ⟨_, _,
    processTrailer_override e cp_name cpid ct dists ppt rem n st d0 hov hne hact,
    rfl, rfl, rfl, rfl, ?_, ?_⟩
  · dsimp only
    rw [if_pos rfl]
  · intro k hk
    dsimp only
    rw [if_neg hk]

/-- Witness for C2: the override `ovD1` forces trailer 1 of `CP1` to `D1`. -/
theorem C2_override_unconditional_witness :
    ∃ st' a, processTrailer (mkEnv inpC2) "CP One" "CP1" 540 [dist1] 50 0 1
        ⟨fun _ => 0, []⟩ = some st' ∧
      st'.out = (⟨fun _ => 0, []⟩ : EState).out ++ [a] ∧
      a.depot_id = "D1" ∧
      a.is_override = true ∧
      a.parcels = trailerParcels 50 0 1 ∧
      st'.A "D1" = (⟨fun _ => 0, []⟩ : EState).A "D1" + trailerParcels 50 0 1 ∧
      (∀ k, k ≠ "D1" → st'.A k = (⟨fun _ => 0, []⟩ : EState).A k) :=
  C2_override_unconditional (mkEnv inpC2) "CP One" "CP1" 540 [dist1] 50 0 1
    ⟨fun _ => 0, []⟩ "D1" (by decide) (by decide) (by decide)

/-! ## C10 — overridden trailer with no distance record -/

/-- **C10.** A trailer forced by manual override to an active depot that has
no distance record in its collection point's ranking is reported with
distance 0, cost 200 (the £200 minimum, since `max(150 + 1.80·0, 200) =
200`), and an arrival time of exactly the collection time plus 60 minutes
(only the fixed loading hour, no travel time). -/
theorem C10_override_without_distance (e : Env) (cp_name cpid : String)
    (ct : ℕ) (dists : List CPDepotDistance) (ppt rem n : ℤ) (st : EState)
    (d0 : String)
    (hov : e.overrideMap (cpid, n, some ct) = some d0) (hne : d0 ≠ "")
    (hact : e.activeIds.contains d0 = true)
    (hnodist : dists.find? (fun d => d.depot_id == d0) = none) :
    ∃ st' a, processTrailer e cp_name cpid ct dists ppt rem n st = some st' ∧
      st'.out = st.out ++ [a] ∧
      a.depot_id = d0 ∧
      a.is_override = true ∧
      a.distance = 0 ∧
      a.cost = 200 ∧
      a.arrival_time = minutes_to_time ((ct : ℚ) + 60) := by
  refine ⟨_, _,
    processTrailer_override e cp_name cpid ct dists ppt rem n st d0 hov hne hact,
    rfl, rfl, rfl, ?_, ?_, ?_⟩
  · show ((dists.find? (fun d => d.depot_id == d0)).map
      (·.distance_miles)).getD 0 = 0
    rw [hnodist]
    rfl
  · show calculate_cost (((dists.find? (fun d => d.depot_id == d0)).map
      (·.distance_miles)).getD 0) = 200
    rw [hnodist]
    show calculate_cost 0 = 200
    unfold calculate_cost
    norm_num
  · show minutes_to_time (calculate_arrival_time ct
      (((dists.find? (fun d => d.depot_id == d0)).map
        (·.distance_miles)).getD 0)) = minutes_to_time ((ct : ℚ) + 60)
    rw [hnodist]
    show minutes_to_time (calculate_arrival_time ct 0) = minutes_to_time ((ct : ℚ) + 60)
    unfold calculate_arrival_time
    norm_num

/-- Witness for C10 at the concrete input `inpC10`: `D2` is active but has
no distance row for `CP1`. -/
theorem C10_override_without_distance_witness :
    ∃ st' a, processTrailer (mkEnv inpC10) "CP One" "CP1" 540 [dist1] 50 0 1
        ⟨fun _ => 0, []⟩ = some st' ∧
      st'.out = (⟨fun _ => 0, []⟩ : EState).out ++ [a] ∧
      a.depot_id = "D2" ∧
      a.is_override = true ∧
      a.distance = 0 ∧
      a.cost = 200 ∧
      a.arrival_time = minutes_to_time ((540 : ℚ) + 60) :=
  C10_override_without_distance (mkEnv inpC10) "CP One" "CP1" 540 [dist1] 50 0 1
    ⟨fun _ => 0, []⟩ "D2" (by decide) (by decide) (by decide) (by decide)

/-! ## C9 — overrides naming non-active depots -/

/-- **C9 counterexample.** The claim says the engine faults on *any* input
containing an override for the date whose named depot is not active.  Input
`inp9c` contains such an override (`ovBad`, naming `DX`), but the override's
key matches no processed trailer, so the engine completes normally and
returns a result instead of faulting. -/
theorem C9_counterexample : getAllocations inp9c = some ([], []) := by rfl

/-- The per-trailer step raises `KeyError` (returns `none`) when a matching
override names a nonempty depot id that is not a key of the
allocated-parcels counters (i.e. not an active depot id). -/
lemma processTrailer_override_inactive (e : Env) (cp_name cpid : String)
    (ct : ℕ) (dists : List CPDepotDistance) (ppt rem n : ℤ) (st : EState)
    (d0 : String)
    (hov : e.overrideMap (cpid, n, some ct) = some d0) (hne : d0 ≠ "")
    (hinact : e.activeIds.contains d0 = false) :
    processTrailer e cp_name cpid ct dists ppt rem n st = none := by
  have hfalsy : strFalsy (some d0) = false := by
    simp [strFalsy, hne]
  unfold processTrailer
  rw [hov]
  simp only [hfalsy, hinact, Bool.false_eq_true, if_false]

lemma mem_trailerNums {n t : ℤ} (h1 : 1 ≤ n) (h2 : n ≤ t) :
    n ∈ trailerNums t := by
  unfold trailerNums
  rw [List.mem_map]
  refine ⟨n.toNat, ?_, Int.toNat_of_nonneg (by omega)⟩
  rw [List.mem_range'_1]
  omega

/-- A fold in the `Option` monad returns `none` as soon as its list contains
an element on which the step fails from every state. -/
lemma foldlM_none_of_mem {σ α : Type} {step : σ → α → Option σ} {x : α}
    (hfail : ∀ s, step s x = none) :
    ∀ (l : List α), x ∈ l → ∀ init : σ, l.foldlM step init = none := by
  intro l
  induction l with
  | nil =>
    intro hx
    exact absurd hx (by simp)
  | cons a l ih =>
    intro hx init
    rw [List.foldlM_cons]
    cases hs : step init a with
    | none => rfl
    | some s1 =>
      rcases List.mem_cons.mp hx with rfl | hx2
      · rw [hfail init] at hs
        exact absurd hs (by simp)
      · simp only [Option.bind_eq_bind, Option.some_bind]
        exact ih hx2 s1

/-- **C9 amended.** The `depot_allocated` counter dict is keyed only by the
active depots, and the counter increment is an unguarded lookup; hence
whenever *any* volume row of the input has an existing collection point and
one of its trailer numbers `1..trailers` matches a manual override naming a
nonempty depot id outside the active set, the engine raises `KeyError`
(returns `none`) instead of producing a result.  An override that matches no
processed trailer does not fault (see the counterexample). -/
theorem C9_override_inactive_faults (input : EngineInput) (v : DailyVolume)
    (cp : CollectionPoint) (n : ℤ) (d0 : String)
    (hv : v ∈ input.volumes)
    (hcp : (mkEnv input).cps.find? (fun c => c.cpid == v.cpid) = some cp)
    (hn1 : 1 ≤ n) (hn2 : n ≤ v.trailers)
    (hov : (mkEnv input).overrideMap
      (v.cpid, n, some (v.collection_time.getD 540)) = some d0)
    (hne : d0 ≠ "")
    (hinact : (mkEnv input).activeIds.contains d0 = false) :
    getAllocations input = none := by
  have hne_nil : ¬ input.volumes.isEmpty = true := by
    cases hl : input.volumes with
    | nil => rw [hl] at hv; exact absurd hv (by simp)
    | cons a l => simp
  have hfail_t : ∀ st : EState, processTrailer (mkEnv input) cp.name v.cpid
      (v.collection_time.getD 540) (distsFor (mkEnv input).distances v.cpid)
      (pptOf v) (remOf v) n st = none := fun st =>
    processTrailer_override_inactive _ _ _ _ _ _ _ _ st d0 hov hne hinact
  have hfail_v : ∀ st : EState, processVolume (mkEnv input) st v = none := by
    intro st
    unfold processVolume
    rw [hcp]
    show (trailerNums v.trailers).foldlM
      (fun st n => processTrailer (mkEnv input) cp.name v.cpid
        (v.collection_time.getD 540)
        (distsFor (mkEnv input).distances v.cpid)
        (pptOf v) (remOf v) n st) st = none
    exact foldlM_none_of_mem hfail_t _ (mem_trailerNums hn1 hn2) st
  have hmem_sorted : v ∈ sortVolumes input.volumes := by
    unfold sortVolumes
    rw [List.mem_insertionSort]
    exact hv
  unfold getAllocations
  rw [if_neg hne_nil]
  change (match (sortVolumes input.volumes).foldlM
      (processVolume (mkEnv input)) ⟨fun _ => 0, []⟩ with
    | none => none
    | some st => some (st.out, depotSummaries (mkEnv input) st.A)) = none
  rw [foldlM_none_of_mem hfail_v _ hmem_sorted _]

/-- Witness for the amended C9: on `inp9g` — two volume rows, the second
row's *second* trailer overridden to the non-active `DX` — the engine
faults. -/
theorem C9_override_inactive_faults_witness : getAllocations inp9g = none :=
  C9_override_inactive_faults inp9g v1 cp1 2 "DX" (by decide) (by decide)
    (by decide) (by decide) (by decide) (by decide) (by decide)

/-! ## Concrete engine runs, evaluated once and shared by witnesses -/

set_option maxRecDepth 4000 in
/-- Full evaluation of the engine on `inp1`. -/
lemma getAllocations_inp1_eval :
    getAllocations inp1 = some ([alloc1a, alloc1b], [sum1]) := by
  unfold alloc1a alloc1b sum1
  norm_num +decide [getAllocations, mkEnv, inp1, sortVolumes, processVolume,
    processTrailer, firstFit, overflowScan, distsFor, depotSummaries,
    Env.overrideMap, Env.capMap, Env.depotMap, Env.baseCap, Env.baseCapList,
    Env.activeIds, dlast, trailerNums, trailerParcels, pptOf, remOf, strFalsy,
    calculate_arrival_time, calculate_available_capacity, calculate_cost,
    minutes_to_time, pyInt, pyRound1, roundHalfEven, v1, d1, cp1, dist1,
    List.insertionSort, List.orderedInsert, List.foldlM, List.range',
    Int.fdiv, Int.fmod]
  norm_num +decide [List.filterMap_cons, List.filterMap_nil]

set_option maxRecDepth 4000 in
/-- Full evaluation of the engine on `inp8`. -/
lemma getAllocations_inp8_eval :
    getAllocations inp8 = some ([alloc8], [sum8]) := by
  unfold alloc8 sum8
  norm_num +decide [getAllocations, mkEnv, inp8, sortVolumes, processVolume,
    processTrailer, firstFit, overflowScan, distsFor, depotSummaries,
    Env.overrideMap, Env.capMap, Env.depotMap, Env.baseCap, Env.baseCapList,
    Env.activeIds, dlast, trailerNums, trailerParcels, pptOf, remOf, strFalsy,
    calculate_arrival_time, calculate_available_capacity, calculate_cost,
    minutes_to_time, pyInt, pyRound1, roundHalfEven, v3, d3, cp1, dist3,
    List.insertionSort, List.orderedInsert, List.foldlM, List.range',
    Int.fdiv, Int.fmod]
  have hfr : Int.fract ((1000:ℚ)/3) < 1/2 := by rw [Int.fract]; norm_num
  norm_num +decide [List.filterMap_cons, List.filterMap_nil, hfr]

/-! ## C8 — depot summary utilisation -/

/-- **C8 counterexample.** The claim says utilisation *equals*
`allocated / capacity × 100`.  On `inp8` (1 parcel allocated against
capacity 3) the code reports `round(100/3, 1) = 33.3 = 333/10`, which is not
`100/3`: the code rounds to one decimal place. -/
theorem C8_counterexample :
    getAllocations inp8 = some ([alloc8], [sum8]) ∧
    sum8.utilisation = 333/10 ∧
    (sum8.allocated_parcels : ℚ) / (sum8.capacity : ℚ) * 100 = 100/3 ∧
    (333/10 : ℚ) ≠ 100/3 := by
  refine ⟨getAllocations_inp8_eval, rfl, ?_, by norm_num⟩
  norm_num [sum8]

/-- Every summary row the aggregator emits comes from an active depot with a
non-zero allocated total and carries the utilisation formula's value. -/
lemma mem_depotSummaries (e : Env) (A : String → ℤ) (s : DepotSummary)
    (hs : s ∈ depotSummaries e A) :
    (0 < s.capacity →
        s.utilisation = pyRound1 ((s.allocated_parcels : ℚ) / (s.capacity : ℚ) * 100)) ∧
    (s.capacity ≤ 0 → s.utilisation = 0) ∧
    s.allocated_parcels ≠ 0 := by
  unfold depotSummaries at hs
  rw [List.mem_filterMap] at hs
  obtain ⟨depot, _, hd⟩ := hs
  by_cases hz : A depot.depot_id = 0
  · rw [if_pos hz] at hd
    exact absurd hd (by simp)
  · rw [if_neg hz] at hd
    injection hd with hd
    subst hd
    refine ⟨?_, ?_, hz⟩
    · intro h
      dsimp only at h ⊢
      rw [if_pos h]
    · intro h
      dsimp only at h ⊢
      rw [if_neg (by omega)]

/-- **C8 amended.** For every depot summary the engine returns, utilisation
equals `allocated_parcels / effective_capacity × 100` **rounded to one
decimal place (round-half-to-even)** when the effective capacity is
positive, and is exactly 0 when the effective capacity is zero (or
negative) — the division is never performed with a non-positive divisor —
and a depot with zero allocated parcels never appears in the summary
list. -/
theorem C8_utilisation (input : EngineInput)
    (r : List Allocation × List DepotSummary)
    (hr : getAllocations input = some r) (s : DepotSummary) (hs : s ∈ r.2) :
    (0 < s.capacity →
        s.utilisation = pyRound1 ((s.allocated_parcels : ℚ) / (s.capacity : ℚ) * 100)) ∧
    (s.capacity ≤ 0 → s.utilisation = 0) ∧
    s.allocated_parcels ≠ 0 := by
  unfold getAllocations at hr
  split at hr
  · injection hr with hr
    rw [← hr] at hs
    exact absurd hs (by simp)
  · change (match List.foldlM (processVolume (mkEnv input)) ⟨fun _ => 0, []⟩
        (sortVolumes input.volumes) with
      | none => none
      | some st => some (st.out, depotSummaries (mkEnv input) st.A))
        = some r at hr
    split at hr
    · exact absurd hr (by simp)
    · injection hr with hr
      rw [← hr] at hs
      exact mem_depotSummaries _ _ s hs

/-- Witness for C8 at the concrete summary row of `inp8`. -/
theorem C8_utilisation_witness :
    (0 < sum8.capacity →
        sum8.utilisation
          = pyRound1 ((sum8.allocated_parcels : ℚ) / (sum8.capacity : ℚ) * 100)) ∧
    (sum8.capacity ≤ 0 → sum8.utilisation = 0) ∧
    sum8.allocated_parcels ≠ 0 :=
  C8_utilisation inp8 ([alloc8], [sum8]) getAllocations_inp8_eval sum8
    (by simp)

/-! ## Dictionary and scan characterization lemmas -/

lemma dlast_isSome_mem {α β : Type} [DecidableEq α] {l : List (α × β)}
    {k : α} (h : (dlast l k).isSome = true) : k ∈ l.map Prod.fst := by
  induction l with
  | nil => simp [dlast] at h
  | cons p rest ih =>
    unfold dlast at h
    cases hm : dlast rest k with
    | some w =>
      exact List.mem_cons_of_mem _ (ih (by rw [hm]; rfl))
    | none =>
      rw [hm] at h
      by_cases hp : p.1 = k
      · rw [List.map_cons, hp]
        exact List.mem_cons_self _ _
      · rw [if_neg hp] at h
        exact absurd h (by simp)

lemma dlast_map_fst {σ α β : Type} [DecidableEq α] (l : List σ) (key : σ → α)
    (f : σ → β) (k : α) :
    dlast (l.map fun s => (key s, f s)) k
      = (dlast (l.map fun s => (key s, s)) k).map f := by
  induction l with
  | nil => rfl
  | cons a l ih =>
    simp only [List.map_cons]
    unfold dlast
    rw [ih]
    cases hm : dlast (l.map fun s => (key s, s)) k with
    | some v => simp
    | none =>
      simp only [Option.map_none']
      by_cases hp : key a = k
      · rw [if_pos hp, if_pos hp]
        rfl
      · rw [if_neg hp, if_neg hp]
        rfl

/-- The effective capacity of a key, through the `depot_map` entry for it. -/
lemma baseCap_eq (e : Env) (k : String) :
    e.baseCap k
      = ((e.depotMap k).map fun d =>
          match e.capMap d.depot_id with
          | some c => c
          | none => d.daily_capacity).getD 0 := by
  unfold Env.baseCap Env.baseCapList Env.depotMap
  rw [dlast_map_fst]

lemma depotMap_isSome_of_baseCap_pos {e : Env} {k : String}
    (h : 0 < e.baseCap k) : ∃ d, e.depotMap k = some d := by
  rw [baseCap_eq] at h
  cases hm : e.depotMap k with
  | none => rw [hm] at h; simp at h
  | some d => exact ⟨d, rfl⟩

lemma contains_of_baseCap_pos {e : Env} {k : String}
    (h : 0 < e.baseCap k) : e.activeIds.contains k = true := by
  obtain ⟨d, hd⟩ := depotMap_isSome_of_baseCap_pos h
  have hk : k ∈ (e.depots.map fun d => (d.depot_id, d)).map Prod.fst :=
    dlast_isSome_mem (by rw [show dlast (e.depots.map fun d => (d.depot_id, d)) k
      = e.depotMap k from rfl, hd]; rfl)
  rw [List.map_map] at hk
  have hmem : k ∈ e.activeIds := by
    unfold Env.activeIds
    simpa using hk
  simpa using List.elem_eq_true_of_mem hmem

/-- Characterization of a successful automatic-assignment scan: the chosen
record is the first in scan order that passes, and every earlier record
fails the check. -/
lemma firstFit_eq_some {e : Env} {A : String → ℤ} {ct : ℕ} {tp : ℤ} :
    ∀ {dists : List CPDepotDistance} {d : String},
      firstFit e A ct tp dists = some d →
      ∃ pre rec suf, dists = pre ++ rec :: suf ∧ rec.depot_id = d ∧
        passes e A ct tp rec ∧ ∀ r ∈ pre, ¬ passes e A ct tp r := by
  intro dists
  induction dists with
  | nil => intro d h; simp [firstFit] at h
  | cons dist rest ih =>
    intro d h
    unfold firstFit at h
    cases hdm : e.depotMap dist.depot_id with
    | none =>
      rw [hdm] at h
      obtain ⟨pre, rec, suf, h1, h2, h3, h4⟩ := ih h
      refine ⟨dist :: pre, rec, suf, by rw [h1]; rfl, h2, h3, ?_⟩
      intro r hr
      rcases List.mem_cons.mp hr with rfl | hr
      · rintro ⟨depot, hd, -, -⟩
        rw [hdm] at hd
        exact absurd hd (by simp)
      · exact h4 r hr
    | some depot =>
      rw [hdm] at h
      simp only at h
      by_cases hbc : e.baseCap dist.depot_id ≤ 0
      · rw [if_pos hbc] at h
        obtain ⟨pre, rec, suf, h1, h2, h3, h4⟩ := ih h
        refine ⟨dist :: pre, rec, suf, by rw [h1]; rfl, h2, h3, ?_⟩
        intro r hr
        rcases List.mem_cons.mp hr with rfl | hr
        · rintro ⟨depot', -, hbc', -⟩
          omega
        · exact h4 r hr
      · rw [if_neg hbc] at h
        by_cases hfit : A dist.depot_id + tp ≤
            calculate_available_capacity depot
              (calculate_arrival_time ct dist.distance_miles)
              (e.baseCap dist.depot_id)
        · rw [if_pos hfit] at h
          injection h with h
          subst h
          exact ⟨[], dist, rest, rfl, rfl,
            ⟨depot, hdm, lt_of_not_le hbc, hfit⟩, by simp⟩
        · rw [if_neg hfit] at h
          obtain ⟨pre, rec, suf, h1, h2, h3, h4⟩ := ih h
          refine ⟨dist :: pre, rec, suf, by rw [h1]; rfl, h2, h3, ?_⟩
          intro r hr
          rcases List.mem_cons.mp hr with rfl | hr
          · rintro ⟨depot', hd', -, hfit'⟩
            rw [hdm] at hd'
            injection hd' with hd'
            subst hd'
            exact hfit hfit'
          · exact h4 r hr

/-- Characterization of a successful overflow scan: the chosen record is the
first in scan order with positive effective capacity. -/
lemma overflowScan_eq_some {e : Env} :
    ∀ {dists : List CPDepotDistance} {d : String},
      overflowScan e dists = some d →
      ∃ pre rec suf, dists = pre ++ rec :: suf ∧ rec.depot_id = d ∧
        0 < e.baseCap rec.depot_id ∧ ∀ r ∈ pre, e.baseCap r.depot_id ≤ 0 := by
  intro dists
  induction dists with
  | nil => intro d h; simp [overflowScan] at h
  | cons dist rest ih =>
    intro d h
    unfold overflowScan at h
    by_cases hbc : 0 < e.baseCap dist.depot_id
    · rw [if_pos hbc] at h
      injection h with h
      subst h
      exact ⟨[], dist, rest, rfl, rfl, hbc, by simp⟩
    · rw [if_neg hbc] at h
      obtain ⟨pre, rec, suf, h1, h2, h3, h4⟩ := ih h
      refine ⟨dist :: pre, rec, suf, by rw [h1]; rfl, h2, h3, ?_⟩
      intro r hr
      rcases List.mem_cons.mp hr with rfl | hr
      · omega
      · exact h4 r hr

lemma firstFit_none_of_all_nonpos {e : Env} {A : String → ℤ} {ct : ℕ}
    {tp : ℤ} {dists : List CPDepotDistance}
    (h : ∀ r ∈ dists, e.baseCap r.depot_id ≤ 0) :
    firstFit e A ct tp dists = none := by
  induction dists with
  | nil => rfl
  | cons dist rest ih =>
    unfold firstFit
    have hrest : ∀ r ∈ rest, e.baseCap r.depot_id ≤ 0 := by
      intro r hr
      exact h r (List.mem_cons_of_mem _ hr)
    cases hdm : e.depotMap dist.depot_id with
    | none => exact ih hrest
    | some depot =>
      simp only
      rw [if_pos (h dist (List.mem_cons_self _ _))]
      exact ih hrest

lemma overflowScan_none_of_all_nonpos {e : Env}
    {dists : List CPDepotDistance}
    (h : ∀ r ∈ dists, e.baseCap r.depot_id ≤ 0) :
    overflowScan e dists = none := by
  induction dists with
  | nil => rfl
  | cons dist rest ih =>
    unfold overflowScan
    rw [if_neg (by have := h dist (List.mem_cons_self _ _); omega)]
    exact ih fun r hr => h r (List.mem_cons_of_mem _ hr)

/-- Master case analysis of one per-trailer step: either nothing was
appended (state unchanged), or exactly one allocation was appended whose
fields echo the trailer being processed, and whose assignment came from the
override map (flagged `is_override`), from a successful first-fit scan
(neither flag set), or from the overflow scan (flagged `is_peak_arrival`). -/
lemma processTrailer_cases (e : Env) (cp_name cpid : String) (ct : ℕ)
    (dists : List CPDepotDistance) (ppt rem n : ℤ) (st st' : EState)
    (h : processTrailer e cp_name cpid ct dists ppt rem n st = some st') :
    st' = st ∨
    ∃ a : Allocation, st'.out = st.out ++ [a] ∧
      a.cpid = cpid ∧ a.collection_time = ct ∧ a.trailer_num = n ∧
      a.parcels = trailerParcels ppt rem n ∧
      (∀ k, st'.A k = if k = a.depot_id then st.A k + a.parcels else st.A k) ∧
      ((a.is_override = true ∧
          e.overrideMap (cpid, n, some ct) = some a.depot_id) ∨
       (a.is_override = false ∧ a.is_peak_arrival = false ∧
          firstFit e st.A ct (trailerParcels ppt rem n) dists = some a.depot_id) ∨
       (a.is_override = false ∧ a.is_peak_arrival = true ∧
          overflowScan e dists = some a.depot_id)) := by
  unfold processTrailer at h
  cases hov : e.overrideMap (cpid, n, some ct) with
  | some d0 =>
    rw [hov] at h
    simp only at h
    by_cases hd0 : strFalsy (some d0) = true
    · rw [if_pos hd0] at h
      injection h with h
      exact Or.inl h.symm
    · rw [if_neg hd0] at h
      by_cases hact : e.activeIds.contains d0 = true
      · rw [if_pos hact] at h
        injection h with h
        subst h
        exact Or.inr ⟨_, rfl, rfl, rfl, rfl, rfl, fun k => rfl,
          Or.inl ⟨rfl, rfl⟩⟩
      · rw [if_neg hact] at h
        exact absurd h (by simp)
  | none =>
    rw [hov] at h
    simp only at h
    by_cases hcond : strFalsy (firstFit e st.A ct (trailerParcels ppt rem n) dists) = true
        ∧ dists ≠ []
    · rw [if_pos hcond] at h
      cases hos : overflowScan e dists with
      | some d2 =>
        rw [hos] at h
        simp only at h
        by_cases hd2 : strFalsy (some d2) = true
        · rw [if_pos hd2] at h
          injection h with h
          exact Or.inl h.symm
        · rw [if_neg hd2] at h
          by_cases hact : e.activeIds.contains d2 = true
          · rw [if_pos hact] at h
            injection h with h
            subst h
            exact Or.inr ⟨_, rfl, rfl, rfl, rfl, rfl, fun k => rfl,
              Or.inr (Or.inr ⟨rfl, rfl, rfl⟩)⟩
          · rw [if_neg hact] at h
            exact absurd h (by simp)
      | none =>
        rw [hos] at h
        simp only at h
        rw [if_pos hcond.1] at h
        injection h with h
        exact Or.inl h.symm
    · rw [if_neg hcond] at h
      simp only at h
      cases hff : firstFit e st.A ct (trailerParcels ppt rem n) dists with
      | none =>
        rw [hff] at h
        simp only [strFalsy, if_pos] at h
        injection h with h
        exact Or.inl h.symm
      | some d1 =>
        rw [hff] at h
        simp only at h
        by_cases hd1 : strFalsy (some d1) = true
        · rw [if_pos hd1] at h
          injection h with h
          exact Or.inl h.symm
        · rw [if_neg hd1] at h
          by_cases hact : e.activeIds.contains d1 = true
          · rw [if_pos hact] at h
            injection h with h
            subst h
            exact Or.inr ⟨_, rfl, rfl, rfl, rfl, rfl, fun k => rfl,
              Or.inr (Or.inl ⟨rfl, rfl, rfl⟩)⟩
          · rw [if_neg hact] at h
            exact absurd h (by simp)

/-- Invariant preservation through an `Option`-monad left fold. -/
lemma foldlM_option_invariant {σ α : Type} {step : σ → α → Option σ}
    {P : σ → Prop}
    (hstep : ∀ s a s', step s a = some s' → P s → P s') :
    ∀ (l : List α) (init st : σ),
      l.foldlM step init = some st → P init → P st := by
  intro l
  induction l with
  | nil =>
    intro init st h hP
    simp only [List.foldlM_nil] at h
    injection h with h
    rw [← h]
    exact hP
  | cons a l ih =>
    intro init st h hP
    rw [List.foldlM_cons] at h
    cases hs : step init a with
    | none =>
      rw [hs] at h
      exact absurd h (by simp [Option.bind])
    | some s1 =>
      rw [hs] at h
      simp only [Option.bind_eq_bind, Option.some_bind] at h
      exact ih s1 st h (hstep init a s1 hs hP)

lemma allocatedFrom_append (l : List Allocation) (a : Allocation)
    (k : String) :
    allocatedFrom (l ++ [a]) k
      = allocatedFrom l k + (if a.depot_id = k then a.parcels else 0) := by
  unfold allocatedFrom
  rw [List.filter_append, List.map_append, List.sum_append]
  congr 1
  by_cases h : a.depot_id = k
  · simp [h]
  · simp [h]

/-- Splitting a list with one element appended: the split point is either
inside the original list or exactly at the appended element. -/
lemma append_singleton_split {α : Type} :
    ∀ (l pre post : List α) (x a : α), l ++ [x] = pre ++ a :: post →
      (∃ post', l = pre ++ a :: post' ∧ post = post' ++ [x]) ∨
      (pre = l ∧ a = x ∧ post = []) := by
  intro l pre
  induction pre generalizing l with
  | nil =>
    intro post x a h
    simp only [List.nil_append] at h
    cases l with
    | nil =>
      simp only [List.nil_append] at h
      injection h with h1 h2
      exact Or.inr ⟨rfl, h1.symm, h2.symm⟩
    | cons b l2 =>
      rw [List.cons_append] at h
      injection h with h1 h2
      refine Or.inl ⟨l2, ?_, h2.symm⟩
      rw [List.nil_append, h1]
  | cons p pre2 ih =>
    intro post x a h
    cases l with
    | nil =>
      simp only [List.nil_append, List.cons_append] at h
      injection h with h1 h2
      exact absurd h2.symm (by simp)
    | cons b l2 =>
      rw [List.cons_append, List.cons_append] at h
      injection h with h1 h2
      rcases ih l2 post x a h2 with ⟨post2, hl, hp⟩ | ⟨hpre, ha, hp⟩
      · refine Or.inl ⟨post2, ?_, hp⟩
        rw [List.cons_append, hl, h1]
      · refine Or.inr ⟨?_, ha, hp⟩
        rw [hpre, h1]

/-- Every allocation in the engine's output is explained at the counter
state current at the moment of its assignment: writing the output as
`pre ++ a :: post`, the counters at that moment are exactly the per-depot
totals `allocatedFrom pre` of the allocations already emitted (each emitted
allocation increments its depot by its parcels, and nothing else touches the
counters), and `a`'s assignment came from the override map, a first-fit scan
at that state, or the overflow scan, as its flags record. -/
lemma out_prefix_characterization (input : EngineInput)
    (r : List Allocation × List DepotSummary)
    (hr : getAllocations input = some r) :
    ∀ (pre : List Allocation) (a : Allocation) (post : List Allocation),
      r.1 = pre ++ a :: post → AllocAtPrefix input pre a := by
  have hvolstep : ∀ s v s', processVolume (mkEnv input) s v = some s' →
      ((∀ k, (s : EState).A k = allocatedFrom s.out k) ∧
        ∀ pre a post, (s : EState).out = pre ++ a :: post →
          AllocAtPrefix input pre a) →
      ((∀ k, (s' : EState).A k = allocatedFrom s'.out k) ∧
        ∀ pre a post, (s' : EState).out = pre ++ a :: post →
          AllocAtPrefix input pre a) := by
    intro s v s' hpv hP
    unfold processVolume at hpv
    split at hpv
    · injection hpv with hpv
      rw [← hpv]
      exact hP
    · refine foldlM_option_invariant
        (P := fun s : EState => (∀ k, s.A k = allocatedFrom s.out k) ∧
          ∀ pre a post, s.out = pre ++ a :: post → AllocAtPrefix input pre a)
        ?_ _ s s' hpv hP
      intro s2 n s3 hstep hP2
      obtain ⟨h1, h2⟩ := hP2
      rcases processTrailer_cases _ _ _ _ _ _ _ _ _ _ hstep with
        heq | ⟨a', hout, hcpid, hct, hnum, hparc, hA, hdisj⟩
      · rw [heq]
        exact ⟨h1, h2⟩
      · have hAf : s2.A = allocatedFrom s2.out := funext h1
        constructor
        · intro k
          rw [hA k, hout, allocatedFrom_append]
          by_cases hk : k = a'.depot_id
          · rw [if_pos hk, if_pos hk.symm, h1 k]
          · rw [if_neg hk, if_neg (fun hh => hk hh.symm), h1 k, add_zero]
        · intro pre a post hsp
          rw [hout] at hsp
          rcases append_singleton_split _ _ _ _ _ hsp with
            ⟨post2, hl, -⟩ | ⟨hpre, ha, -⟩
          · exact h2 pre a post2 hl
          · subst hpre
            subst ha
            unfold AllocAtPrefix
            rw [hcpid, hct, hnum, hparc, ← hAf]
            exact hdisj
  unfold getAllocations at hr
  split at hr
  · injection hr with hr
    rw [← hr]
    intro pre a post h
    exact absurd h (by simp)
  · change (match List.foldlM (processVolume (mkEnv input)) ⟨fun _ => 0, []⟩
        (sortVolumes input.volumes) with
      | none => none
      | some st => some (st.out, depotSummaries (mkEnv input) st.A))
        = some r at hr
    split at hr
    · exact absurd hr (by simp)
    · rename_i st hst
      injection hr with hr
      rw [← hr]
      exact (foldlM_option_invariant
        (P := fun s : EState => (∀ k, s.A k = allocatedFrom s.out k) ∧
          ∀ pre a post, s.out = pre ++ a :: post → AllocAtPrefix input pre a)
        hvolstep (sortVolumes input.volumes) ⟨fun _ => 0, []⟩ st hst
        ⟨fun k => rfl, fun pre a post h => absurd h (by simp)⟩).2

/-- Weaker corollary: every allocation in the output is explained at *some*
counter state (namely the one current at its moment of assignment). -/
lemma mem_out_characterization (input : EngineInput)
    (r : List Allocation × List DepotSummary)
    (hr : getAllocations input = some r) (a : Allocation) (ha : a ∈ r.1) :
    AllocOK input a := by
  obtain ⟨pre, post, hsp⟩ := List.append_of_mem ha
  exact ⟨allocatedFrom pre, out_prefix_characterization input r hr pre a post hsp⟩

/-! ## C1 — automatic assignment is capacity-checked first fit -/

lemma distsFor_sorted (ds : List CPDepotDistance) (cpid : String) :
    (distsFor ds cpid).Pairwise (fun x y => x.rank ≤ y.rank) := by
  unfold distsFor
  haveI ht : IsTotal CPDepotDistance (fun a b => a.rank ≤ b.rank) :=
    ⟨fun a b => le_total a.rank b.rank⟩
  haveI htr : IsTrans CPDepotDistance (fun a b => a.rank ≤ b.rank) :=
    ⟨fun a b c hab hbc => le_trans hab hbc⟩
  exact List.sorted_insertionSort _ _

/-- **C1.** Every automatically assigned trailer in the engine's output
(neither override nor overflow) was placed by first fit over its collection
point's distance records in ascending rank order.  Writing the output as
`pre ++ a :: post`, the per-depot counters at the moment `a` was assigned
are exactly `allocatedFrom pre`, the totals already allocated by the earlier
allocations (output order is processing order, and each emitted allocation
increments precisely its depot's counter by its parcels).  At that state the
chosen record passes the check
`already_allocated + trailer_parcels ≤ available_capacity` — with the
available capacity computed by the Capacity Model at the arrival time
derived from the trailer's collection time and that record's distance — the
chosen record's depot has positive effective capacity, and every
earlier-ranked record fails the check (or is inactive / out of capacity). -/
theorem C1_first_fit_capacity (input : EngineInput)
    (r : List Allocation × List DepotSummary)
    (hr : getAllocations input = some r)
    (pre : List Allocation) (a : Allocation) (post : List Allocation)
    (hsplit : r.1 = pre ++ a :: post)
    (hov : a.is_override = false) (hpk : a.is_peak_arrival = false) :
    (distsFor input.distances a.cpid).Pairwise (fun x y => x.rank ≤ y.rank) ∧
    ∃ pre2 drec suf2,
      distsFor input.distances a.cpid = pre2 ++ drec :: suf2 ∧
      drec.depot_id = a.depot_id ∧
      passes (mkEnv input) (allocatedFrom pre) a.collection_time a.parcels
        drec ∧
      ∀ r' ∈ pre2,
        ¬ passes (mkEnv input) (allocatedFrom pre) a.collection_time
          a.parcels r' := by
  refine ⟨distsFor_sorted _ _, ?_⟩
  have hchar := out_prefix_characterization input r hr pre a post hsplit
  unfold AllocAtPrefix at hchar
  rcases hchar with ⟨h1, -⟩ | ⟨-, -, hff⟩ | ⟨-, hpk2, -⟩
  · rw [hov] at h1
    exact absurd h1 (by simp)
  · obtain ⟨pre2, drec, suf2, h1, h2, h3, h4⟩ := firstFit_eq_some hff
    exact ⟨pre2, drec, suf2, h1, h2, h3, h4⟩
  · rw [hpk] at hpk2
    exact absurd hpk2 (by simp)

/-- Witness for C1 at `inp1`: the *second* trailer's allocation to `D1`,
whose moment-of-assignment counters `allocatedFrom [alloc1a]` already hold
the first trailer's 50 parcels. -/
theorem C1_first_fit_capacity_witness :
    (distsFor inp1.distances alloc1b.cpid).Pairwise
        (fun x y => x.rank ≤ y.rank) ∧
    ∃ pre2 drec suf2,
      distsFor inp1.distances alloc1b.cpid = pre2 ++ drec :: suf2 ∧
      drec.depot_id = alloc1b.depot_id ∧
      passes (mkEnv inp1) (allocatedFrom [alloc1a]) alloc1b.collection_time
        alloc1b.parcels drec ∧
      ∀ r' ∈ pre2,
        ¬ passes (mkEnv inp1) (allocatedFrom [alloc1a])
          alloc1b.collection_time alloc1b.parcels r' :=
  C1_first_fit_capacity inp1 ([alloc1a, alloc1b], [sum1])
    getAllocations_inp1_eval [alloc1a] alloc1b [] rfl rfl rfl

/-! ## C3 — overflow (peak-arrival) fallback and silent drop -/

/-- Evaluation of the per-trailer step when there is no override, the
first-fit scan fails, and the overflow scan picks depot `d2`. -/
lemma processTrailer_overflow (e : Env) (cp_name cpid : String) (ct : ℕ)
    (dists : List CPDepotDistance) (ppt rem n : ℤ) (st : EState) (d2 : String)
    (hov : e.overrideMap (cpid, n, some ct) = none)
    (hff : firstFit e st.A ct (trailerParcels ppt rem n) dists = none)
    (hos : overflowScan e dists = some d2) (hne : d2 ≠ "") :
    processTrailer e cp_name cpid ct dists ppt rem n st
      = some ⟨fun k => if k = d2 then st.A k + trailerParcels ppt rem n else st.A k,
          st.out ++
            [{ cpid := cpid, cp_name := cp_name, trailer_num := n,
               parcels := trailerParcels ppt rem n, depot_id := d2,
               depot_name := ((e.depotMap d2).map (·.name)).getD d2,
               distance := ((dists.find? (fun d => d.depot_id == d2)).map
                 (·.distance_miles)).getD 0,
               cost := calculate_cost (((dists.find? (fun d => d.depot_id == d2)).map
                 (·.distance_miles)).getD 0),
               is_override := false, collection_time := ct,
               arrival_time := minutes_to_time (calculate_arrival_time ct
                 (((dists.find? (fun d => d.depot_id == d2)).map
                   (·.distance_miles)).getD 0)),
               is_peak_arrival := true }]⟩ := by
  have hdne : dists ≠ [] := by
    intro hnil
    rw [hnil] at hos
    exact absurd hos (by simp [overflowScan])
  have hact : e.activeIds.contains d2 = true := by
    obtain ⟨pre, drec, suf, -, hid, hpos, -⟩ := overflowScan_eq_some hos
    rw [hid] at hpos
    exact contains_of_baseCap_pos hpos
  have hbe : (d2 == "") = false := by
    simp [hne]
  unfold processTrailer
  rw [hov]
  simp only [hff, hos, strFalsy, hdne, ne_eq, not_false_iff, and_true, if_true,
    hbe, hact, Bool.false_eq_true, if_false]

/-- **C3.** Three facts about the overflow policy.  (1) When no override
matches and no ranked depot passes the capacity check, but the overflow scan
finds a depot `d2`, the trailer is assigned to `d2` with
`is_peak_arrival = true`, `d2` has positive effective capacity, and `d2` is
the first depot in rank order with positive effective capacity (every
earlier record has capacity ≤ 0): a zero-capacity depot is never the
overflow target.  (2) Engine-wide, every non-override allocation — overflow
or not — goes to a depot with positive effective capacity, so a depot whose
capacity override is 0 is never assigned automatically.  (3) When no
override matches and no ranked depot has positive effective capacity at
all, the step leaves the state unchanged: the trailer appears nowhere in
the output. -/
theorem C3_overflow_policy :
    (∀ (e : Env) (cp_name cpid : String) (ct : ℕ)
        (dists : List CPDepotDistance) (ppt rem n : ℤ) (st : EState)
        (d2 : String),
      e.overrideMap (cpid, n, some ct) = none →
      firstFit e st.A ct (trailerParcels ppt rem n) dists = none →
      overflowScan e dists = some d2 → d2 ≠ "" →
      ∃ st' a pre drec suf,
        processTrailer e cp_name cpid ct dists ppt rem n st = some st' ∧
        st'.out = st.out ++ [a] ∧ a.depot_id = d2 ∧
        a.is_peak_arrival = true ∧ a.is_override = false ∧
        0 < e.baseCap d2 ∧ dists = pre ++ drec :: suf ∧ drec.depot_id = d2 ∧
        (∀ r' ∈ pre, e.baseCap r'.depot_id ≤ 0)) ∧
    (∀ (input : EngineInput) (r : List Allocation × List DepotSummary),
      getAllocations input = some r → ∀ a ∈ r.1,
        a.is_override = false → 0 < (mkEnv input).baseCap a.depot_id) ∧
    (∀ (e : Env) (cp_name cpid : String) (ct : ℕ)
        (dists : List CPDepotDistance) (ppt rem n : ℤ) (st : EState),
      e.overrideMap (cpid, n, some ct) = none →
      (∀ r' ∈ dists, e.baseCap r'.depot_id ≤ 0) →
      processTrailer e cp_name cpid ct dists ppt rem n st = some st) := by
  refine ⟨?_, ?_, ?_⟩
  · intro e cp_name cpid ct dists ppt rem n st d2 hov hff hos hne
    obtain ⟨pre, drec, suf, hsplit, hid, hpos, hpre⟩ := overflowScan_eq_some hos
    refine ⟨_, _, pre, drec, suf,
      processTrailer_overflow e cp_name cpid ct dists ppt rem n st d2
        hov hff hos hne,
      rfl, rfl, rfl, rfl, by rw [← hid]; exact hpos, hsplit, hid, hpre⟩
  · intro input r hr a ha hov
    obtain ⟨A, hd⟩ := mem_out_characterization input r hr a ha
    rcases hd with ⟨h1, -⟩ | ⟨-, -, hff⟩ | ⟨-, -, hos⟩
    · rw [hov] at h1
      exact absurd h1 (by simp)
    · obtain ⟨pre, drec, suf, -, hid, hpass, -⟩ := firstFit_eq_some hff
      obtain ⟨depot, -, hpos, -⟩ := hpass
      rw [hid] at hpos
      exact hpos
    · obtain ⟨pre, drec, suf, -, hid, hpos, -⟩ := overflowScan_eq_some hos
      rw [hid] at hpos
      exact hpos
  · intro e cp_name cpid ct dists ppt rem n st hov hall
    have hff : firstFit e st.A ct (trailerParcels ppt rem n) dists = none :=
      firstFit_none_of_all_nonpos hall
    have hos : overflowScan e dists = none :=
      overflowScan_none_of_all_nonpos hall
    unfold processTrailer
    rw [hov]
    by_cases hd : dists = []
    · subst hd
      simp [hff, strFalsy, overflowScan]
    · simp [hff, hos, strFalsy, hd]

/-- On `inpC3` (depot capacity 10), a 50-parcel trailer fits nowhere: the
available capacity at the 10:30 arrival is `⌊10·450/600⌋ = 7`. -/
lemma firstFit_inpC3_eval :
    firstFit (mkEnv inpC3) (⟨fun _ => 0, []⟩ : EState).A 540
      (trailerParcels 50 0 1) [dist1] = none := by
  norm_num +decide [firstFit, mkEnv, inpC3, Env.depotMap, Env.baseCap,
    Env.baseCapList, Env.capMap, dlast, trailerParcels,
    calculate_arrival_time, calculate_available_capacity, pyInt, dSmall,
    cp1, dist1, v1]

/-- Witness for C3: overflow on `inpC3`, positive capacity of the depot of
`inp1`'s automatic allocation, and the dropped trailer on `inpC3b` (capacity
override 0). -/
theorem C3_overflow_policy_witness :
    (∃ st' a pre drec suf,
        processTrailer (mkEnv inpC3) "CP One" "CP1" 540 [dist1] 50 0 1
          ⟨fun _ => 0, []⟩ = some st' ∧
        st'.out = (⟨fun _ => 0, []⟩ : EState).out ++ [a] ∧
        a.depot_id = "D1" ∧ a.is_peak_arrival = true ∧
        a.is_override = false ∧ 0 < (mkEnv inpC3).baseCap "D1" ∧
        [dist1] = pre ++ drec :: suf ∧ drec.depot_id = "D1" ∧
        (∀ r' ∈ pre, (mkEnv inpC3).baseCap r'.depot_id ≤ 0)) ∧
    (0 < (mkEnv inp1).baseCap alloc1a.depot_id) ∧
    (processTrailer (mkEnv inpC3b) "CP One" "CP1" 540 [dist1] 50 0 1
        ⟨fun _ => 0, []⟩ = some ⟨fun _ => 0, []⟩) := by
  refine ⟨?_, ?_, ?_⟩
  · exact C3_overflow_policy.1 (mkEnv inpC3) "CP One" "CP1" 540 [dist1] 50 0 1
      ⟨fun _ => 0, []⟩ "D1" (by decide) firstFit_inpC3_eval (by decide)
      (by decide)
  · exact C3_overflow_policy.2.1 inp1 ([alloc1a, alloc1b], [sum1])
      getAllocations_inp1_eval alloc1a (by simp) rfl
  · exact C3_overflow_policy.2.2 (mkEnv inpC3b) "CP One" "CP1" 540 [dist1]
      50 0 1 ⟨fun _ => 0, []⟩ (by decide) (by decide)

/-! ## C7 — distance records and ranks -/

/-- **C7 counterexample.** The claim says a distance record is created for
every active depot *and only active depots*.  Both `calculate_distances`
(`import_data.py:73-94`) and `add_collection_point` (`main.py:1474-1489`)
query `db.query(Depot).all()` with no `is_active` filter: running the
computation for one collection point against the single *inactive* depot
`depotX` still produces a (rank-1) record for it. -/
theorem C7_counterexample :
    calculate_distances_cp "CPX" [depotX] (fun _ => 0)
      = [{ cpid := "CPX", depot_id := "DX", distance_miles := 0, rank := 1 }] ∧
    depotX.is_active = false := by
  constructor
  · norm_num [calculate_distances_cp, sortedPairs, rawPairs, round2,
      roundHalfEven, depotX, List.insertionSort, List.orderedInsert,
      List.range']
  · rfl

lemma zip_map_fst {α β : Type} (l1 : List α) (l2 : List β)
    (h : l1.length ≤ l2.length) : (l1.zip l2).map Prod.fst = l1 :=
  List.map_fst_zip l1 l2 h

/-- **C7 amended.** For one collection point, the distance computation
creates a record for **every depot in the input list — active or not** (the
stored depot ids are a permutation of the input's), the assigned ranks are
exactly the contiguous sequence `1..N`, the stored (two-decimal-rounded)
distances are non-decreasing in rank order, and the sort is stable: among
records whose raw distance is equal, the input (first-encountered) order is
preserved. -/
theorem C7_distance_ranks (cpid : String) (depots : List Depot)
    (hav : Depot → ℚ) :
    (calculate_distances_cp cpid depots hav).length = depots.length ∧
    (calculate_distances_cp cpid depots hav).map (·.rank)
      = (List.range' 1 depots.length).map (fun n : ℕ => (n : ℤ)) ∧
    (calculate_distances_cp cpid depots hav).Pairwise
      (fun x y => x.distance_miles ≤ y.distance_miles) ∧
    ((calculate_distances_cp cpid depots hav).map (·.depot_id)).Perm
      (depots.map (·.depot_id)) ∧
    (∀ q : ℚ, (sortedPairs depots hav).filter (fun p => p.2 == q)
      = (rawPairs depots hav).filter (fun p => p.2 == q)) := by
  haveI ht : IsTotal (String × ℚ) (fun a b => a.2 ≤ b.2) :=
    ⟨fun a b => le_total a.2 b.2⟩
  haveI htr : IsTrans (String × ℚ) (fun a b => a.2 ≤ b.2) :=
    ⟨fun a b c hab hbc => le_trans hab hbc⟩
  have hlenraw : (rawPairs depots hav).length = depots.length := by
    unfold rawPairs
    exact List.length_map _ _
  have hlen : (sortedPairs depots hav).length = depots.length := by
    unfold sortedPairs
    rw [List.length_insertionSort]
    exact hlenraw
  have hrange : (List.range' 1 (sortedPairs depots hav).length).length
      = (sortedPairs depots hav).length := List.length_range' _ _ _
  have hzfst : ((List.range' 1 (sortedPairs depots hav).length).zip
        (sortedPairs depots hav)).map Prod.fst
      = List.range' 1 (sortedPairs depots hav).length :=
    zip_map_fst _ _ (le_of_eq hrange)
  have hzsnd : ((List.range' 1 (sortedPairs depots hav).length).zip
        (sortedPairs depots hav)).map Prod.snd
      = sortedPairs depots hav :=
    List.map_snd_zip _ _ (le_of_eq hrange.symm)
  have hperm : (sortedPairs depots hav).Perm (rawPairs depots hav) := by
    unfold sortedPairs
    exact List.perm_insertionSort _ _
  have hsorted : (sortedPairs depots hav).Pairwise
      (fun a b => a.2 ≤ b.2) := by
    unfold sortedPairs
    exact List.sorted_insertionSort _ _
  refine ⟨?_, ?_, ?_, ?_, ?_⟩
  · unfold calculate_distances_cp
    simp only [List.length_map, List.length_zip, List.length_range']
    omega
  · unfold calculate_distances_cp
    simp only [List.map_map]
    have : ((fun x : CPDepotDistance => x.rank) ∘ fun p : ℕ × (String × ℚ) =>
        ({ cpid := cpid, depot_id := p.2.1, distance_miles := round2 p.2.2,
           rank := (p.1 : ℤ) } : CPDepotDistance))
        = (fun n : ℕ => (n : ℤ)) ∘ Prod.fst := rfl
    rw [this, ← List.map_map, hzfst, hlen]
  · unfold calculate_distances_cp
    rw [List.pairwise_map]
    have hz : (((List.range' 1 (sortedPairs depots hav).length).zip
          (sortedPairs depots hav)).map Prod.snd).Pairwise
        (fun a b => a.2 ≤ b.2) := by
      rw [hzsnd]
      exact hsorted
    rw [List.pairwise_map] at hz
    exact hz.imp fun hab => round2_mono hab
  · unfold calculate_distances_cp
    simp only [List.map_map]
    have : ((fun x : CPDepotDistance => x.depot_id) ∘ fun p : ℕ × (String × ℚ) =>
        ({ cpid := cpid, depot_id := p.2.1, distance_miles := round2 p.2.2,
           rank := (p.1 : ℤ) } : CPDepotDistance))
        = (fun pr : String × ℚ => pr.1) ∘ Prod.snd := rfl
    rw [this, ← List.map_map, hzsnd]
    have : (rawPairs depots hav).map (fun pr : String × ℚ => pr.1)
        = depots.map (·.depot_id) := by
      unfold rawPairs
      rw [List.map_map]
      rfl
    rw [← this]
    exact hperm.map _
  · intro q
    have hmemq : ∀ p ∈ (rawPairs depots hav).filter (fun p => p.2 == q),
        p.2 = q := by
      intro p hp
      have := (List.mem_filter.mp hp).2
      simpa using this
    have hpw : ((rawPairs depots hav).filter
        (fun p => p.2 == q)).Pairwise (fun a b => a.2 ≤ b.2) := by
      apply List.pairwise_of_forall_mem_list
      intro x hx y hy
      rw [hmemq x hx, hmemq y hy]
    have hsub : List.Sublist ((rawPairs depots hav).filter (fun p => p.2 == q))
        (sortedPairs depots hav) := by
      unfold sortedPairs
      exact List.sublist_insertionSort hpw (List.filter_sublist _)
    have hsub2 : List.Sublist ((rawPairs depots hav).filter (fun p => p.2 == q))
        ((sortedPairs depots hav).filter (fun p => p.2 == q)) := by
      have hcf : ((rawPairs depots hav).filter
            (fun p => p.2 == q)).filter (fun p => p.2 == q)
          = (rawPairs depots hav).filter (fun p => p.2 == q) :=
        List.filter_eq_self.mpr (fun a ha => (List.mem_filter.mp ha).2)
      have h1 := hsub.filter (fun p => p.2 == q)
      rwa [hcf] at h1
    have hlenf : ((sortedPairs depots hav).filter (fun p => p.2 == q)).length
        = ((rawPairs depots hav).filter (fun p => p.2 == q)).length :=
      (hperm.filter _).length_eq
    exact (hsub2.eq_of_length (by omega)).symm
